import Mathlib

/-!
Verification of the headless GPU-to-CPU image readback pipeline in
`src/render_headless.rs` (bevy_rat).

The Rust source is shallowly embedded: machine integers become `Nat`
(the sizes involved are far below any overflow boundary, and the code
performs no wrapping arithmetic), the GPU buffer is modelled by its byte
size, byte buffers are `List Nat`, and the two per-frame stages
(`ImageCopyNode::run` and `receive_image_from_buffer`) are modelled as
pure functions from the frame's request registry to the commands
submitted / events performed, with `unwrap`/`panic` modelled as an
explicit panic flag.
-/

namespace RenderHeadless

/-- wgpu's `COPY_BYTES_PER_ROW_ALIGNMENT` constant: rows of a
texture-to-buffer copy must start at multiples of 256 bytes. -/
def COPY_BYTES_PER_ROW_ALIGNMENT : Nat := 256

/-- Bevy's `RenderDevice::align_copy_bytes_per_row`:
`row_bytes + (align - row_bytes % align) % align`, i.e. round `row_bytes`
up to the next multiple of 256. -/
def align_copy_bytes_per_row (row_bytes : Nat) : Nat :=
  row_bytes +
    (COPY_BYTES_PER_ROW_ALIGNMENT - row_bytes % COPY_BYTES_PER_ROW_ALIGNMENT) %
      COPY_BYTES_PER_ROW_ALIGNMENT

/-- Pixel-format data the copy stage reads off a `wgpu::TextureFormat`:
`block_dimensions()`, `block_copy_size(None).unwrap()`, and bevy's
`TextureFormatPixelInfo::pixel_size()`. -/
structure TextureFormat where
  blockDimensions : Nat × Nat
  blockCopySize : Nat
  pixelSize : Nat
  deriving Repr, DecidableEq

/-- `TextureFormat::Rgba8UnormSrgb`: 1×1 blocks, 4 bytes per block,
4 bytes per pixel. -/
def TextureFormat.rgba8UnormSrgb : TextureFormat :=
  { blockDimensions := (1, 1), blockCopySize := 4, pixelSize := 4 }

/-- `TextureFormat::bevy_default()`, the format `create_render_textures`
gives both textures. -/
def TextureFormat.bevy_default : TextureFormat := TextureFormat.rgba8UnormSrgb

/-- The pixel formats this repository ever creates readback textures with:
`create_render_textures` always uses `TextureFormat::bevy_default()`. -/
def supportedFormats : List TextureFormat := [TextureFormat.bevy_default]

/-- `wgpu::Extent3d`. -/
structure Extent3d where
  width : Nat
  height : Nat
  depth_or_array_layers : Nat
  deriving Repr, DecidableEq

/-- A GPU buffer, modelled by its allocated byte size (the only
observable the claims need). -/
structure Buffer where
  size : Nat
  deriving Repr, DecidableEq

/-- `ImageCopier`: one readback request. `src_image` is the asset handle
(modelled as a numeric id); `enabled` is the `Arc<AtomicBool>` flag
(modelled as the `Bool` it holds). -/
structure ImageCopier where
  buffer : Buffer
  enabled : Bool
  src_image : Nat
  deriving Repr, DecidableEq

/-- `ImageCopier::new`: allocates the staging buffer of size
`align_copy_bytes_per_row(width) * 4 * height` bytes and starts enabled. -/
def ImageCopier.new (src_image : Nat) (size : Extent3d) : ImageCopier :=
  let padded_bytes_per_row := align_copy_bytes_per_row size.width * 4
  { buffer := { size := padded_bytes_per_row * size.height }
    src_image := src_image
    enabled := true }

/-- The GPU-resident image a handle resolves to in `RenderAssets`. -/
structure GpuImage where
  texture_format : TextureFormat
  sizeX : Nat
  sizeY : Nat
  deriving Repr, DecidableEq

/-- The `padded_bytes_per_row` the copy stage recomputes from the live
texture: `align_copy_bytes_per_row((size.x / block_w) * block_size)`. -/
def copyStagePaddedBytesPerRow (img : GpuImage) : Nat :=
  align_copy_bytes_per_row
    ((img.sizeX / img.texture_format.blockDimensions.1) * img.texture_format.blockCopySize)

/-- One `copy_texture_to_buffer` command as encoded and submitted by
`ImageCopyNode::run`. -/
structure CopyCommand where
  src_image : Nat
  dest : Buffer
  bytes_per_row : Nat
  extent : Extent3d
  deriving Repr, DecidableEq

/-- `ImageCopyNode::run`: iterate the registry; skip disabled copiers;
`unwrap` the gpu image (panic if absent — modelled by the `Bool` flag,
`true` = panicked); encode and submit one copy command per enabled
copier. Commands submitted before a panic stay submitted. -/
def ImageCopyNode.run (gpu_images : Nat → Option GpuImage) :
    List ImageCopier → List CopyCommand × Bool
  | [] => ([], false)
  | c :: rest =>
    if c.enabled = false then ImageCopyNode.run gpu_images rest
    else
      match gpu_images c.src_image with
      | none => ([], true)
      | some src_image =>
        let cmd : CopyCommand :=
          { src_image := c.src_image
            dest := c.buffer
            bytes_per_row := copyStagePaddedBytesPerRow src_image
            extent :=
              { width := src_image.sizeX
                height := src_image.sizeY
                depth_or_array_layers := 1 } }
        let rec_result := ImageCopyNode.run gpu_images rest
        (cmd :: rec_result.1, rec_result.2)

/-- Observable events of `receive_image_from_buffer`, one constructor per
operation the Rust body performs on a request's buffer/channel; the `Nat`
is the request's `src_image` handle id. `send` records whether the
delivery channel still had a live receiver (`Sender::send` succeeded). -/
inductive RbEvent where
  | mapBuf (id : Nat)
  | wait (id : Nat)
  | copyOut (id : Nat)
  | send (id : Nat) (ok : Bool)
  | unmap (id : Nat)
  deriving Repr, DecidableEq

/-- The request id an event concerns. -/
def RbEvent.id : RbEvent → Nat
  | .mapBuf i => i
  | .wait i => i
  | .copyOut i => i
  | .send i _ => i
  | .unmap i => i

/-- `receive_image_from_buffer`: iterate the registry; skip disabled
copiers; for each enabled copier: `map_async` the buffer, `poll` + block
on the rendezvous channel, copy the mapped range out, send it on the
delivery channel with `let _ = sender.send(..)` (result discarded), then
`unmap`. `mapOk id` tells whether the device reports the map of that
copier's buffer as succeeding; on failure the callback `panic!`s /
`recv` `expect`s — modelled by the `Bool` panic flag, halting the loop.
`channelOpen` tells whether `MainWorldReceiver` still exists. -/
def receive_image_from_buffer (mapOk : Nat → Bool) (channelOpen : Bool) :
    List ImageCopier → List RbEvent × Bool
  | [] => ([], false)
  | c :: rest =>
    if c.enabled = false then receive_image_from_buffer mapOk channelOpen rest
    else if mapOk c.src_image = false then
      ([RbEvent.mapBuf c.src_image, RbEvent.wait c.src_image], true)
    else
      let rec_result := receive_image_from_buffer mapOk channelOpen rest
      ([RbEvent.mapBuf c.src_image, RbEvent.wait c.src_image,
        RbEvent.copyOut c.src_image, RbEvent.send c.src_image channelOpen,
        RbEvent.unmap c.src_image] ++ rec_result.1,
       rec_result.2)

/-- The id carried by an `unmap` event, if any. -/
def RbEvent.unmapId : RbEvent → Option Nat
  | .unmap i => some i
  | _ => none

/-- The event sequence `receive_image_from_buffer` performs for one
enabled request whose buffer maps successfully: map, wait for the
rendezvous, copy the mapped range out, send (with the channel's
liveness), unmap. -/
def rbBlock (i : Nat) (channelOpen : Bool) : List RbEvent :=
  [RbEvent.mapBuf i, RbEvent.wait i, RbEvent.copyOut i,
   RbEvent.send i channelOpen, RbEvent.unmap i]

/-- Worker for `chunks`, structurally recursive on a fuel argument so
that it is kernel-computable; with `fuel ≥ l.length` and `n > 0` the
fuel never runs out (see `chunksAux_congr_fuel`). -/
def chunksAux (n : Nat) : Nat → List α → List (List α)
  | _, [] => []
  | 0, a :: as => [a :: as]
  | fuel + 1, a :: as => (a :: as).take n :: chunksAux n fuel ((a :: as).drop n)

/-- Rust `slice::chunks n` (for `n > 0`, the only way Rust permits
calling it): split into consecutive chunks of `n` elements, the last
chunk possibly shorter; an empty slice yields no chunks.
(See `chunks_eq_cons` for the defining take/drop unfolding.) -/
def chunks (n : Nat) (l : List α) : List (List α) := chunksAux n l.length l

/-- `parse_image_data` (the frame-reconstruction core): given the target
image's width, height and pixel size and the received byte buffer,
produce the de-padded image bytes. Mirrors
`image_data.chunks(aligned_row_bytes).take(height).flat_map(|row| &row[..row_bytes.min(row.len())])`
(`List.take` already truncates at the chunk length, as `.min(row.len())`
does). -/
def parse_image_data (width height pixelSize : Nat) (image_data : List Nat) :
    List Nat :=
  let row_bytes := width * pixelSize
  let aligned_row_bytes := align_copy_bytes_per_row row_bytes
  if row_bytes = aligned_row_bytes then image_data
  else
    (((chunks aligned_row_bytes image_data).take height).map
      (fun row => row.take row_bytes)).flatten

theorem le_align_copy_bytes_per_row (n : Nat) : n ≤ align_copy_bytes_per_row n := by
  simp [align_copy_bytes_per_row]

theorem align_copy_bytes_per_row_dvd (n : Nat) :
    COPY_BYTES_PER_ROW_ALIGNMENT ∣ align_copy_bytes_per_row n := by
  simp only [align_copy_bytes_per_row, COPY_BYTES_PER_ROW_ALIGNMENT]
  omega

theorem align_copy_bytes_per_row_lt (n : Nat) :
    align_copy_bytes_per_row n < n + COPY_BYTES_PER_ROW_ALIGNMENT := by
  simp only [align_copy_bytes_per_row, COPY_BYTES_PER_ROW_ALIGNMENT]
  omega

/-- `align_copy_bytes_per_row n` is the LEAST multiple of the alignment
that is `≥ n`. -/
theorem align_copy_bytes_per_row_le (n m : Nat) (hnm : n ≤ m)
    (hm : COPY_BYTES_PER_ROW_ALIGNMENT ∣ m) : align_copy_bytes_per_row n ≤ m := by
  simp only [align_copy_bytes_per_row, COPY_BYTES_PER_ROW_ALIGNMENT] at *
  omega

/-- The fuel argument of `chunksAux` is irrelevant as long as it is at
least the list length (and the chunk size is positive). -/
theorem chunksAux_congr_fuel (n : Nat) (hn : 0 < n) :
    ∀ (k fuel₁ fuel₂ : Nat) (l : List α), l.length ≤ k →
      l.length ≤ fuel₁ → l.length ≤ fuel₂ →
      chunksAux n fuel₁ l = chunksAux n fuel₂ l := by
  intro k
  induction k using Nat.strong_induction_on with
  | _ k ih =>
    intro fuel₁ fuel₂ l hk h1 h2
    cases l with
    | nil => cases fuel₁ <;> cases fuel₂ <;> rfl
    | cons a as =>
      simp only [List.length_cons] at hk h1 h2
      obtain ⟨f₁, rfl⟩ : ∃ f, fuel₁ = f + 1 := ⟨fuel₁ - 1, by omega⟩
      obtain ⟨f₂, rfl⟩ : ∃ f, fuel₂ = f + 1 := ⟨fuel₂ - 1, by omega⟩
      simp only [chunksAux]
      congr 1
      have hdrop : ((a :: as).drop n).length = as.length + 1 - n := by
        simp [List.length_drop]
      exact ih (k - 1) (by omega) f₁ f₂ _ (by omega) (by omega) (by omega)

theorem chunks_nil (n : Nat) : chunks n ([] : List α) = [] := rfl

/-- For positive chunk size, `chunks` satisfies the usual take/drop
unfolding on a non-empty list. -/
theorem chunks_eq_cons (n : Nat) (hn : 0 < n) (a : α) (as : List α) :
    chunks n (a :: as) = (a :: as).take n :: chunks n ((a :: as).drop n) := by
  show chunksAux n (a :: as).length (a :: as) = _
  simp only [List.length_cons, chunksAux]
  congr 1
  apply chunksAux_congr_fuel n hn (as.length + 1)
  all_goals (simp only [List.length_drop, List.length_cons]; omega)

/-- `chunks_eq_cons` restated for any non-empty list. -/
theorem chunks_eq_of_ne_nil (n : Nat) (hn : 0 < n) (l : List α) (hl : l ≠ []) :
    chunks n l = l.take n :: chunks n (l.drop n) := by
  cases l with
  | nil => exact absurd rfl hl
  | cons a as => exact chunks_eq_cons n hn a as

/-- Chunking the concatenation of lists that all have exactly the chunk
length recovers those lists. -/
theorem chunks_flatten (n : Nat) (hn : 0 < n) :
    ∀ ls : List (List α), (∀ l ∈ ls, l.length = n) → chunks n ls.flatten = ls := by
  intro ls
  induction ls with
  | nil => intro _; simpa using chunks_nil n
  | cons l rest ih =>
    intro hlen
    have hl : l.length = n := hlen l (by simp)
    have hflat : (l :: rest).flatten = l ++ rest.flatten := by simp
    have hne : l ++ rest.flatten ≠ [] := by
      intro hcontra
      have : l = [] := by
        cases l with
        | nil => rfl
        | cons a as => simp at hcontra
      rw [this] at hl
      simp at hl
      omega
    rw [hflat, chunks_eq_of_ne_nil n hn _ hne]
    have htake : (l ++ rest.flatten).take n = l := by
      rw [← hl]; exact List.take_left l rest.flatten
    have hdrop : (l ++ rest.flatten).drop n = rest.flatten := by
      rw [← hl]; exact List.drop_left l rest.flatten
    rw [htake, hdrop, ih (fun x hx => hlen x (by simp [hx]))]

/-- Length of the de-padding pipeline
`flatten (map (take r) (take h (chunks n data)))` on a buffer of exactly
`h` full chunks. -/
theorem flatten_map_take_chunks_length (n r : Nat) (hn : 0 < n) (hr : r ≤ n) :
    ∀ (h : Nat) (data : List α), data.length = n * h →
      ((((chunks n data).take h).map (fun row => row.take r)).flatten).length = r * h := by
  intro h
  induction h with
  | zero => intro data _; simp
  | succ h ih =>
    intro data hdata
    have hne : data ≠ [] := by
      intro hcontra
      rw [hcontra] at hdata
      simp at hdata
      omega
    rw [chunks_eq_of_ne_nil n hn data hne]
    have hdroplen : (data.drop n).length = n * h := by
      simp [List.length_drop, hdata]; ring_nf; omega
    have htakelen : (data.take n).length = n := by
      simp [List.length_take, hdata]
      calc n ≤ n * 1 := by omega
        _ ≤ n * (h + 1) := Nat.mul_le_mul_left n (by omega)
    have hrec := ih (data.drop n) hdroplen
    simp only [List.take_succ_cons, List.map_cons, List.flatten_cons,
      List.length_append, hrec]
    have : ((data.take n).take r).length = r := by
      simp [List.length_take, htakelen]
      omega
    rw [this]
    ring

/-- Output length of `parse_image_data` on a fully padded input buffer of
exactly `aligned_row_bytes * height` bytes: exactly
`row_bytes * height`. -/
theorem parse_image_data_length (w h p : Nat) (data : List Nat)
    (hd : data.length = align_copy_bytes_per_row (w * p) * h) :
    (parse_image_data w h p data).length = w * p * h := by
  simp only [parse_image_data]
  by_cases hcase : w * p = align_copy_bytes_per_row (w * p)
  · rw [if_pos hcase, hd, ← hcase]
  · rw [if_neg hcase]
    have hpos : 0 < align_copy_bytes_per_row (w * p) := by
      have := le_align_copy_bytes_per_row (w * p)
      omega
    have := flatten_map_take_chunks_length (align_copy_bytes_per_row (w * p)) (w * p)
      hpos (le_align_copy_bytes_per_row (w * p)) h data hd
    simpa using this

/-- Appending a pad of fixed length `b` to rows of fixed length `a`
yields rows of fixed length `a + b`. -/
theorem length_mem_zipWith_append {α : Type} (a b : Nat) :
    ∀ (rows pads : List (List α)), (∀ r ∈ rows, r.length = a) →
      (∀ p ∈ pads, p.length = b) →
      ∀ l ∈ List.zipWith (· ++ ·) rows pads, l.length = a + b := by
  intro rows
  induction rows with
  | nil => intro pads _ _ l hl; simp at hl
  | cons r rest ih =>
    intro pads hr hp l hl
    cases pads with
    | nil => simp at hl
    | cons p ps =>
      simp only [List.zipWith_cons_cons, List.mem_cons] at hl
      rcases hl with rfl | hl
      · simp [hr r (by simp), hp p (by simp)]
      · exact ih ps (fun x hx => hr x (by simp [hx]))
          (fun x hx => hp x (by simp [hx])) l hl

/-- Taking back the first `a` bytes of each padded row recovers the
original rows. -/
theorem map_take_zipWith_append {α : Type} (a : Nat) :
    ∀ (rows pads : List (List α)), rows.length = pads.length →
      (∀ r ∈ rows, r.length = a) →
      (List.zipWith (· ++ ·) rows pads).map (fun l => l.take a) = rows := by
  intro rows
  induction rows with
  | nil => intro pads _ _; simp
  | cons r rest ih =>
    intro pads hlen hr
    cases pads with
    | nil => simp at hlen
    | cons p ps =>
      simp only [List.zipWith_cons_cons, List.map_cons]
      have hra : r.length = a := hr r (by simp)
      have htake : (r ++ p).take a = r := by
        rw [← hra]; exact List.take_left r p
      rw [htake, ih ps (by simpa using hlen) (fun x hx => hr x (by simp [hx]))]

/-- Zipping with empty pads is the identity on the rows. -/
theorem zipWith_append_nil {α : Type} :
    ∀ (rows pads : List (List α)), rows.length = pads.length →
      (∀ p ∈ pads, p.length = 0) →
      List.zipWith (· ++ ·) rows pads = rows := by
  intro rows
  induction rows with
  | nil => intro pads _ _; simp
  | cons r rest ih =>
    intro pads hlen hp
    cases pads with
    | nil => simp at hlen
    | cons p ps =>
      have hp0 : p = [] := List.length_eq_zero.mp (hp p (by simp))
      simp only [List.zipWith_cons_cons, hp0, List.append_nil]
      rw [ih ps (by simpa using hlen) (fun x hx => hp x (by simp [hx]))]

/-- Round trip: padding each row of a `w × h` pattern up to the aligned
row length (arbitrary pad contents) and de-padding with
`parse_image_data` recovers the pattern byte-for-byte. -/
theorem parse_image_data_round_trip (w h : Nat) (rows pads : List (List Nat))
    (hrows : rows.length = h) (hpads : pads.length = h)
    (hrowlen : ∀ r ∈ rows, r.length = w * 4)
    (hpadlen : ∀ p ∈ pads, p.length = align_copy_bytes_per_row (w * 4) - w * 4) :
    parse_image_data w h 4 ((List.zipWith (· ++ ·) rows pads).flatten) =
      rows.flatten := by
  have hle := le_align_copy_bytes_per_row (w * 4)
  simp only [parse_image_data]
  by_cases hcase : w * 4 = align_copy_bytes_per_row (w * 4)
  · rw [if_pos hcase]
    have : ∀ p ∈ pads, p.length = 0 := by
      intro p hp
      rw [hpadlen p hp]
      omega
    rw [zipWith_append_nil rows pads (hrows.trans hpads.symm) this]
  · rw [if_neg hcase]
    have hpos : 0 < align_copy_bytes_per_row (w * 4) := by omega
    have hpadded : ∀ l ∈ List.zipWith (· ++ ·) rows pads,
        l.length = align_copy_bytes_per_row (w * 4) := by
      intro l hl
      have := length_mem_zipWith_append (w * 4)
        (align_copy_bytes_per_row (w * 4) - w * 4) rows pads hrowlen hpadlen l hl
      omega
    rw [chunks_flatten _ hpos _ hpadded]
    have hzlen : (List.zipWith (· ++ ·) rows pads).length = h := by
      simp [List.length_zipWith, hrows, hpads]
    have htakeh : (List.zipWith (· ++ ·) rows pads).take h =
        List.zipWith (· ++ ·) rows pads := by
      rw [← hzlen]; exact List.take_length _
    rw [htakeh,
      map_take_zipWith_append (w * 4) rows pads (hrows.trans hpads.symm) hrowlen]

theorem run_nil (g : Nat → Option GpuImage) :
    ImageCopyNode.run g [] = ([], false) := rfl

/-- One-step unfolding of the copy stage's registry loop. -/
theorem run_cons (g : Nat → Option GpuImage) (c : ImageCopier)
    (rest : List ImageCopier) :
    ImageCopyNode.run g (c :: rest) =
      if c.enabled = false then ImageCopyNode.run g rest
      else
        match g c.src_image with
        | none => ([], true)
        | some img =>
          ({ src_image := c.src_image
             dest := c.buffer
             bytes_per_row := copyStagePaddedBytesPerRow img
             extent :=
               { width := img.sizeX
                 height := img.sizeY
                 depth_or_array_layers := 1 } } ::
            (ImageCopyNode.run g rest).1,
           (ImageCopyNode.run g rest).2) := rfl

/-- One-step unfolding of the map-and-deliver stage's registry loop. -/
theorem receive_cons (mapOk : Nat → Bool) (channelOpen : Bool)
    (c : ImageCopier) (rest : List ImageCopier) :
    receive_image_from_buffer mapOk channelOpen (c :: rest) =
      if c.enabled = false then
        receive_image_from_buffer mapOk channelOpen rest
      else if mapOk c.src_image = false then
        ([RbEvent.mapBuf c.src_image, RbEvent.wait c.src_image], true)
      else
        (rbBlock c.src_image channelOpen ++
          (receive_image_from_buffer mapOk channelOpen rest).1,
         (receive_image_from_buffer mapOk channelOpen rest).2) := rfl

/-- The copy stage skips a disabled copier: deleting it from the registry
leaves the stage's output (commands and panic flag) unchanged. -/
theorem run_skip_disabled (g : Nat → Option GpuImage) (c : ImageCopier)
    (hc : c.enabled = false) :
    ∀ xs ys : List ImageCopier,
      ImageCopyNode.run g (xs ++ c :: ys) = ImageCopyNode.run g (xs ++ ys) := by
  intro xs
  induction xs with
  | nil =>
    intro ys
    rw [List.nil_append, List.nil_append, run_cons, if_pos hc]
  | cons x xs ih =>
    intro ys
    rw [List.cons_append, List.cons_append, run_cons, run_cons, ih ys]

/-- The map-and-deliver stage skips a disabled copier likewise. -/
theorem receive_skip_disabled (mapOk : Nat → Bool) (channelOpen : Bool)
    (c : ImageCopier) (hc : c.enabled = false) :
    ∀ xs ys : List ImageCopier,
      receive_image_from_buffer mapOk channelOpen (xs ++ c :: ys) =
        receive_image_from_buffer mapOk channelOpen (xs ++ ys) := by
  intro xs
  induction xs with
  | nil =>
    intro ys
    rw [List.nil_append, List.nil_append, receive_cons, if_pos hc]
  | cons x xs ih =>
    intro ys
    rw [List.cons_append, List.cons_append, receive_cons, receive_cons, ih ys]

/-- If an enabled copier's gpu image is absent, the copy stage's `unwrap`
panics there: commands of enabled copiers earlier in the registry were
already submitted, the panic flag is set, and nothing after the failing
copier is processed. -/
theorem run_missing_image (g : Nat → Option GpuImage) (c : ImageCopier)
    (hc : ¬c.enabled = false) (hmiss : g c.src_image = none) :
    ∀ xs ys : List ImageCopier,
      (∀ x ∈ xs, x.enabled = true → (g x.src_image).isSome) →
      ImageCopyNode.run g (xs ++ c :: ys) = ((ImageCopyNode.run g xs).1, true) := by
  intro xs
  induction xs with
  | nil =>
    intro ys _
    rw [List.nil_append, run_cons, if_neg hc, hmiss]
    rfl
  | cons x xs ih =>
    intro ys hxs
    have hxs' : ∀ x ∈ xs, x.enabled = true → (g x.src_image).isSome :=
      fun y hy => hxs y (by simp [hy])
    by_cases hx : x.enabled = false
    · rw [List.cons_append, run_cons, if_pos hx, run_cons, if_pos hx]
      exact ih ys hxs'
    · have hxe : x.enabled = true := by
        cases hcase : x.enabled
        · exact absurd hcase hx
        · rfl
      obtain ⟨img, himg⟩ : ∃ img, g x.src_image = some img := by
        have := hxs x (by simp) hxe
        cases hcase : g x.src_image
        · rw [hcase] at this; simp at this
        · exact ⟨_, rfl⟩
      rw [List.cons_append, run_cons, run_cons, if_neg hx, if_neg hx, himg,
        ih ys hxs']

/-- With every map reported successful, the map-and-deliver stage never
panics and unmaps each enabled copier's buffer in registry order,
whatever the state of the delivery channel. -/
theorem receive_unmaps_all (mapOk : Nat → Bool) (channelOpen : Bool)
    (hmap : ∀ j, mapOk j = true) :
    ∀ cs : List ImageCopier,
      (receive_image_from_buffer mapOk channelOpen cs).2 = false ∧
      (receive_image_from_buffer mapOk channelOpen cs).1.filterMap RbEvent.unmapId =
        (cs.filter (fun c => c.enabled)).map (fun c => c.src_image) := by
  intro cs
  induction cs with
  | nil => exact ⟨rfl, rfl⟩
  | cons c rest ih =>
    rw [receive_cons]
    by_cases hc : c.enabled = false
    · rw [if_pos hc]
      refine ⟨ih.1, ?_⟩
      rw [ih.2]
      simp [List.filter_cons, hc]
    · have hce : c.enabled = true := by
        cases h : c.enabled
        · exact absurd h hc
        · rfl
      rw [if_neg hc, if_neg (by rw [hmap c.src_image]; simp)]
      refine ⟨ih.1, ?_⟩
      simp only [List.filterMap_append, ih.2, List.filter_cons, hce, if_true]
      simp [rbBlock, RbEvent.unmapId]

/-- Per-request trace of the map-and-deliver stage: restricted to one
request id, the trace is exactly the cycle
map → wait → copy-out → send → unmap, repeated once per enabled copier
with that id, in registry order. -/
theorem receive_trace_per_id (mapOk : Nat → Bool) (channelOpen : Bool)
    (hmap : ∀ j, mapOk j = true) :
    ∀ (cs : List ImageCopier) (i : Nat),
      (receive_image_from_buffer mapOk channelOpen cs).1.filter
          (fun e => e.id == i) =
        (List.replicate
          ((cs.filter (fun c => c.enabled && c.src_image == i)).length)
          (rbBlock i channelOpen)).flatten := by
  intro cs
  induction cs with
  | nil => intro i; rfl
  | cons c rest ih =>
    intro i
    rw [receive_cons]
    by_cases hc : c.enabled = false
    · rw [if_pos hc, ih i]
      simp [List.filter_cons, hc]
    · have hce : c.enabled = true := by
        cases h : c.enabled
        · exact absurd h hc
        · rfl
      rw [if_neg hc, if_neg (by rw [hmap c.src_image]; simp)]
      simp only [List.filter_append, ih i]
      by_cases hi : c.src_image = i
      · subst hi
        simp [rbBlock, RbEvent.id, List.filter_cons, hce, List.replicate_succ]
      · have hbeq : (c.src_image == i) = false := by simp [hi]
        simp [rbBlock, RbEvent.id, List.filter_cons, hce, hbeq]

/-- C1 counterexample: the claim says `ImageCopier::new` allocates
exactly `round_up(width * 4, 256) * height` bytes. At width 1, height 1
the claimed size is 256, but the code aligns the pixel WIDTH and then
multiplies by 4, allocating `round_up(1, 256) * 4 = 1024` bytes. -/
theorem C1_counterexample :
    ¬((ImageCopier.new 0 ⟨1, 1, 1⟩).buffer.size =
        align_copy_bytes_per_row (1 * 4) * 1) := by decide

/-- C1 (amended): `ImageCopier::new` allocates a staging buffer of
exactly `round_up(width, 256) * 4 * height` bytes — the row alignment is
applied to the pixel width, then scaled by the 4 bytes per RGBA8 pixel —
which is at least the copy stage's recomputed
`padded_bytes_per_row * height` for a live texture of that width in the
default RGBA8 format; the buffer's size is fixed at construction. -/
theorem C1_buffer_size (s : Nat) (e : Extent3d) (img : GpuImage)
    (hfmt : img.texture_format = TextureFormat.bevy_default)
    (hw : img.sizeX = e.width) :
    (ImageCopier.new s e).buffer.size =
      align_copy_bytes_per_row e.width * 4 * e.height ∧
    copyStagePaddedBytesPerRow img * e.height ≤
      (ImageCopier.new s e).buffer.size := by
  refine ⟨rfl, ?_⟩
  have h1 : copyStagePaddedBytesPerRow img ≤ align_copy_bytes_per_row e.width * 4 := by
    simp only [copyStagePaddedBytesPerRow, hfmt, hw, TextureFormat.bevy_default,
      TextureFormat.rgba8UnormSrgb, Nat.div_one]
    apply align_copy_bytes_per_row_le
    · exact Nat.mul_le_mul_right 4 (le_align_copy_bytes_per_row e.width)
    · exact Dvd.dvd.mul_right (align_copy_bytes_per_row_dvd e.width) 4
  calc copyStagePaddedBytesPerRow img * e.height
      ≤ align_copy_bytes_per_row e.width * 4 * e.height :=
        Nat.mul_le_mul_right _ h1
    _ = (ImageCopier.new s e).buffer.size := rfl

/-- Witness for C1_buffer_size at a 258 × 4 extent. -/
theorem C1_buffer_size_witness :
    (⟨TextureFormat.bevy_default, 258, 4⟩ : GpuImage).texture_format =
        TextureFormat.bevy_default ∧
    (⟨TextureFormat.bevy_default, 258, 4⟩ : GpuImage).sizeX =
        (⟨258, 4, 1⟩ : Extent3d).width ∧
    ((ImageCopier.new 0 ⟨258, 4, 1⟩).buffer.size =
        align_copy_bytes_per_row (258 : Nat) * 4 * 4 ∧
      copyStagePaddedBytesPerRow ⟨TextureFormat.bevy_default, 258, 4⟩ * 4 ≤
        (ImageCopier.new 0 ⟨258, 4, 1⟩).buffer.size) :=
  ⟨rfl, rfl, C1_buffer_size 0 ⟨258, 4, 1⟩ ⟨TextureFormat.bevy_default, 258, 4⟩ rfl rfl⟩

/-- C2 counterexample: the claim says the reconstructed buffer has
length `row_bytes * height` for ANY input buffer length. A 2-byte input
for a 1×1 RGBA8 image (row_bytes = 4) yields a 2-byte output, because
`&row[..row_bytes.min(row.len())]` truncates at a short final chunk. -/
theorem C2_counterexample :
    ¬((parse_image_data 1 1 4 [0, 0]).length = 1 * 4 * 1) := by decide

/-- C2 (amended): for input buffers of the expected padded size
`aligned_row_bytes * height` — which is what the copy stage's staging
buffer layout delivers — `parse_image_data` produces exactly
`row_bytes * height` bytes; shorter inputs may produce shorter output. -/
theorem C2_parse_output_length (w h p : Nat) (data : List Nat)
    (hd : data.length = align_copy_bytes_per_row (w * p) * h) :
    (parse_image_data w h p data).length = w * p * h :=
  parse_image_data_length w h p data hd

set_option maxRecDepth 4000 in
/-- Witness for C2_parse_output_length at a 1×1 RGBA8 image with a fully
padded 256-byte input. -/
theorem C2_parse_output_length_witness :
    (List.replicate 256 0).length = align_copy_bytes_per_row (1 * 4) * 1 ∧
    (parse_image_data 1 1 4 (List.replicate 256 0)).length = 1 * 4 * 1 :=
  ⟨by decide, C2_parse_output_length 1 1 4 (List.replicate 256 0) (by decide)⟩

/-- C3: round trip — padding each row of a `w × h` RGBA pattern from
`w * 4` bytes up to the aligned row length with arbitrary pad bytes and
de-padding the concatenation with `parse_image_data` returns the
original pattern byte-for-byte. -/
theorem C3_round_trip (w h : Nat) (rows pads : List (List Nat))
    (hrows : rows.length = h) (hpads : pads.length = h)
    (hrowlen : ∀ r ∈ rows, r.length = w * 4)
    (hpadlen : ∀ p ∈ pads, p.length = align_copy_bytes_per_row (w * 4) - w * 4) :
    parse_image_data w h 4 ((List.zipWith (· ++ ·) rows pads).flatten) =
      rows.flatten :=
  parse_image_data_round_trip w h rows pads hrows hpads hrowlen hpadlen

set_option maxRecDepth 4000 in
/-- Witness for C3_round_trip: a 1×1 image with pixel bytes 9,8,7,6 and
a 252-byte pad. -/
theorem C3_round_trip_witness :
    ([[9, 8, 7, 6]] : List (List Nat)).length = 1 ∧
    ([List.replicate 252 0] : List (List Nat)).length = 1 ∧
    (∀ r ∈ ([[9, 8, 7, 6]] : List (List Nat)), r.length = 1 * 4) ∧
    (∀ p ∈ ([List.replicate 252 0] : List (List Nat)),
      p.length = align_copy_bytes_per_row (1 * 4) - 1 * 4) ∧
    parse_image_data 1 1 4
        ((List.zipWith (· ++ ·) [[9, 8, 7, 6]] [List.replicate 252 0]).flatten) =
      ([[9, 8, 7, 6]] : List (List Nat)).flatten :=
  ⟨by decide, by decide, by decide, by decide,
    C3_round_trip 1 1 [[9, 8, 7, 6]] [List.replicate 252 0]
      (by decide) (by decide) (by decide) (by decide)⟩

/-- C4: for every extent and every pixel format the repository creates
readback textures with, the copy stage's recomputed
`padded_bytes_per_row` is at least `width * bytes_per_pixel` and is a
multiple of the 256-byte row alignment. -/
theorem C4_padded_bytes_per_row (w h : Nat) (fmt : TextureFormat)
    (hfmt : fmt ∈ supportedFormats) :
    w * fmt.pixelSize ≤ copyStagePaddedBytesPerRow ⟨fmt, w, h⟩ ∧
    COPY_BYTES_PER_ROW_ALIGNMENT ∣ copyStagePaddedBytesPerRow ⟨fmt, w, h⟩ := by
  have hf : fmt = TextureFormat.bevy_default := by
    simpa [supportedFormats] using hfmt
  subst hf
  refine ⟨?_, align_copy_bytes_per_row_dvd _⟩
  show w * 4 ≤ align_copy_bytes_per_row (w / 1 * 4)
  rw [Nat.div_one]
  exact le_align_copy_bytes_per_row (w * 4)

/-- Witness for C4_padded_bytes_per_row at 258 × 4, RGBA8. -/
theorem C4_padded_bytes_per_row_witness :
    TextureFormat.bevy_default ∈ supportedFormats ∧
    (258 * TextureFormat.bevy_default.pixelSize ≤
        copyStagePaddedBytesPerRow ⟨TextureFormat.bevy_default, 258, 4⟩ ∧
      COPY_BYTES_PER_ROW_ALIGNMENT ∣
        copyStagePaddedBytesPerRow ⟨TextureFormat.bevy_default, 258, 4⟩) :=
  ⟨by decide, C4_padded_bytes_per_row 258 4 TextureFormat.bevy_default (by decide)⟩

/-- C5: a disabled request is skipped entirely by both per-frame stages:
deleting it from the registry changes neither the copy stage's commands
and panic flag nor the map-and-deliver stage's events and panic flag, so
no command, map, send or unmap happens for it and its resources are left
intact; as both stages are pure functions of the frame's registry, this
holds for every frame in which the flag still reads false. -/
theorem C5_disabled_skipped (g : Nat → Option GpuImage) (mapOk : Nat → Bool)
    (channelOpen : Bool) (c : ImageCopier) (hc : c.enabled = false)
    (xs ys : List ImageCopier) :
    ImageCopyNode.run g (xs ++ c :: ys) = ImageCopyNode.run g (xs ++ ys) ∧
    receive_image_from_buffer mapOk channelOpen (xs ++ c :: ys) =
      receive_image_from_buffer mapOk channelOpen (xs ++ ys) :=
  ⟨run_skip_disabled g c hc xs ys,
    receive_skip_disabled mapOk channelOpen c hc xs ys⟩

/-- Witness for C5_disabled_skipped: one disabled copier between two
enabled ones. -/
theorem C5_disabled_skipped_witness :
    (⟨⟨1024⟩, false, 5⟩ : ImageCopier).enabled = false ∧
    (ImageCopyNode.run (fun _ => some ⟨TextureFormat.bevy_default, 8, 8⟩)
        ([⟨⟨1024⟩, true, 0⟩] ++ ⟨⟨1024⟩, false, 5⟩ :: [⟨⟨1024⟩, true, 1⟩]) =
      ImageCopyNode.run (fun _ => some ⟨TextureFormat.bevy_default, 8, 8⟩)
        ([⟨⟨1024⟩, true, 0⟩] ++ [⟨⟨1024⟩, true, 1⟩]) ∧
    receive_image_from_buffer (fun _ => true) true
        ([⟨⟨1024⟩, true, 0⟩] ++ ⟨⟨1024⟩, false, 5⟩ :: [⟨⟨1024⟩, true, 1⟩]) =
      receive_image_from_buffer (fun _ => true) true
        ([⟨⟨1024⟩, true, 0⟩] ++ [⟨⟨1024⟩, true, 1⟩])) :=
  ⟨rfl, C5_disabled_skipped (fun _ => some ⟨TextureFormat.bevy_default, 8, 8⟩)
    (fun _ => true) true ⟨⟨1024⟩, false, 5⟩ rfl
    [⟨⟨1024⟩, true, 0⟩] [⟨⟨1024⟩, true, 1⟩]⟩

/-- C6 counterexample: the claim says a missing gpu image is a
request-local failure — other requests still processed, process not
aborted. In the code `gpu_images.get(..).unwrap()` panics: with two
enabled copiers where the first one's image is missing (the second's is
present), the stage panics and submits NO command at all, so the second
request is not processed. -/
theorem C6_counterexample :
    ImageCopyNode.run
        (fun i => if i = 1 then some ⟨TextureFormat.bevy_default, 8, 8⟩ else none)
        [⟨⟨1024⟩, true, 0⟩, ⟨⟨1024⟩, true, 1⟩] = ([], true) := by decide

/-- C6 (amended): if an enabled request's gpu image is unavailable when
the copy stage runs, the stage panics (aborting the process) at that
request: commands of enabled requests earlier in registry order were
already submitted, but the failing request and everything after it get
no command — there is no `SourceNotReady` error scoped to the request. -/
theorem C6_missing_image_panics (g : Nat → Option GpuImage) (c : ImageCopier)
    (hc : ¬c.enabled = false) (hmiss : g c.src_image = none)
    (xs ys : List ImageCopier)
    (hxs : ∀ x ∈ xs, x.enabled = true → (g x.src_image).isSome) :
    ImageCopyNode.run g (xs ++ c :: ys) = ((ImageCopyNode.run g xs).1, true) :=
  run_missing_image g c hc hmiss xs ys hxs

/-- Witness for C6_missing_image_panics: a healthy enabled copier before
the failing one, another after it. -/
theorem C6_missing_image_panics_witness :
    ¬(⟨⟨1024⟩, true, 0⟩ : ImageCopier).enabled = false ∧
    (fun i => if i = 1 then some (⟨TextureFormat.bevy_default, 8, 8⟩ : GpuImage)
      else none) 0 = none ∧
    (∀ x ∈ ([⟨⟨1024⟩, true, 1⟩] : List ImageCopier), x.enabled = true →
      ((fun i => if i = 1 then some (⟨TextureFormat.bevy_default, 8, 8⟩ : GpuImage)
        else none) x.src_image).isSome) ∧
    ImageCopyNode.run
        (fun i => if i = 1 then some ⟨TextureFormat.bevy_default, 8, 8⟩ else none)
        ([⟨⟨1024⟩, true, 1⟩] ++ ⟨⟨1024⟩, true, 0⟩ :: [⟨⟨1024⟩, true, 2⟩]) =
      ((ImageCopyNode.run
          (fun i => if i = 1 then some ⟨TextureFormat.bevy_default, 8, 8⟩ else none)
          [⟨⟨1024⟩, true, 1⟩]).1, true) :=
  ⟨by decide, by decide, by decide,
    C6_missing_image_panics
      (fun i => if i = 1 then some ⟨TextureFormat.bevy_default, 8, 8⟩ else none)
      ⟨⟨1024⟩, true, 0⟩ (by decide) (by decide)
      [⟨⟨1024⟩, true, 1⟩] [⟨⟨1024⟩, true, 2⟩] (by decide)⟩

/-- C7: when the delivery channel's receiver is gone, the ignored
`sender.send` result is the only difference: the stage still completes
without panicking and still unmaps every enabled request's buffer in
registry order (given the maps themselves succeed). -/
theorem C7_send_failure_swallowed (mapOk : Nat → Bool)
    (hmap : ∀ j, mapOk j = true) (cs : List ImageCopier) :
    (receive_image_from_buffer mapOk false cs).2 = false ∧
    (receive_image_from_buffer mapOk false cs).1.filterMap RbEvent.unmapId =
      (cs.filter (fun c => c.enabled)).map (fun c => c.src_image) :=
  receive_unmaps_all mapOk false hmap cs

/-- Witness for C7_send_failure_swallowed with two enabled copiers. -/
theorem C7_send_failure_swallowed_witness :
    (∀ j : Nat, (fun _ => true) j = true) ∧
    ((receive_image_from_buffer (fun _ => true) false
        [⟨⟨1024⟩, true, 0⟩, ⟨⟨1024⟩, true, 1⟩]).2 = false ∧
      (receive_image_from_buffer (fun _ => true) false
          [⟨⟨1024⟩, true, 0⟩, ⟨⟨1024⟩, true, 1⟩]).1.filterMap RbEvent.unmapId =
        (([⟨⟨1024⟩, true, 0⟩, ⟨⟨1024⟩, true, 1⟩] : List ImageCopier).filter
            (fun c => c.enabled)).map (fun c => c.src_image)) :=
  ⟨fun _ => rfl, C7_send_failure_swallowed (fun _ => true) (fun _ => rfl)
    [⟨⟨1024⟩, true, 0⟩, ⟨⟨1024⟩, true, 1⟩]⟩

/-- C8: per request id, the map-and-deliver stage's event trace is
exactly the strictly sequential cycle
map → wait → copy-out → send → unmap, once per enabled copier with that
id (so one unmap per map, the copy-out precedes its unmap, and the unmap
happens whether or not the channel send succeeded). -/
theorem C8_map_unmap_sequence (mapOk : Nat → Bool) (channelOpen : Bool)
    (hmap : ∀ j, mapOk j = true) (cs : List ImageCopier) (i : Nat) :
    (receive_image_from_buffer mapOk channelOpen cs).1.filter
        (fun e => e.id == i) =
      (List.replicate
        ((cs.filter (fun c => c.enabled && c.src_image == i)).length)
        (rbBlock i channelOpen)).flatten :=
  receive_trace_per_id mapOk channelOpen hmap cs i

/-- Witness for C8_map_unmap_sequence: two enabled copiers, the trace
restricted to id 0. -/
theorem C8_map_unmap_sequence_witness :
    (∀ j : Nat, (fun _ => true) j = true) ∧
    (receive_image_from_buffer (fun _ => true) true
        [⟨⟨1024⟩, true, 0⟩, ⟨⟨1024⟩, true, 1⟩]).1.filter
        (fun e => e.id == 0) =
      (List.replicate
        ((([⟨⟨1024⟩, true, 0⟩, ⟨⟨1024⟩, true, 1⟩] : List ImageCopier).filter
          (fun c => c.enabled && c.src_image == 0)).length)
        (rbBlock 0 true)).flatten :=
  ⟨fun _ => rfl, C8_map_unmap_sequence (fun _ => true) true (fun _ => rfl)
    [⟨⟨1024⟩, true, 0⟩, ⟨⟨1024⟩, true, 1⟩] 0⟩

/-- C9: concrete 258 × 4 RGBA8 scenario: `row_bytes = 1032`,
`aligned_row_bytes = 1280`, and a 5120-byte padded buffer reconstructs
to exactly 4128 bytes. -/
theorem C9_scenario :
    258 * 4 = 1032 ∧ align_copy_bytes_per_row 1032 = 1280 ∧
    (parse_image_data 258 4 4 (List.replicate (1280 * 4) 0)).length = 1032 * 4 := by
  refine ⟨rfl, by decide, ?_⟩
  have h := parse_image_data_length 258 4 4 (List.replicate (1280 * 4) 0)
    (by rw [List.length_replicate]; decide)
  rw [h]

/-- C10: a freshly constructed `ImageCopier` starts with its enabled
flag true, and without any further call it already participates in the
next copy stage: alone in the registry (its image being available) it
receives exactly one copy command. -/
theorem C10_new_starts_enabled (s : Nat) (e : Extent3d)
    (g : Nat → Option GpuImage) (img : GpuImage) (himg : g s = some img) :
    (ImageCopier.new s e).enabled = true ∧
    ImageCopyNode.run g [ImageCopier.new s e] =
      ([{ src_image := s
          dest := (ImageCopier.new s e).buffer
          bytes_per_row := copyStagePaddedBytesPerRow img
          extent :=
            { width := img.sizeX
              height := img.sizeY
              depth_or_array_layers := 1 } }], false) := by
  refine ⟨rfl, ?_⟩
  rw [run_cons]
  have : ¬(ImageCopier.new s e).enabled = false := by
    simp [ImageCopier.new]
  rw [if_neg this]
  show (match g s with
    | none => ([], true)
    | some img => _) = _
  rw [himg]
  rfl

/-- Witness for C10_new_starts_enabled at handle 7, extent 258 × 4. -/
theorem C10_new_starts_enabled_witness :
    (fun i => if i = 7 then some (⟨TextureFormat.bevy_default, 258, 4⟩ : GpuImage)
      else none) 7 = some ⟨TextureFormat.bevy_default, 258, 4⟩ ∧
    ((ImageCopier.new 7 ⟨258, 4, 1⟩).enabled = true ∧
      ImageCopyNode.run
          (fun i => if i = 7 then some ⟨TextureFormat.bevy_default, 258, 4⟩
            else none)
          [ImageCopier.new 7 ⟨258, 4, 1⟩] =
        ([{ src_image := 7
            dest := (ImageCopier.new 7 ⟨258, 4, 1⟩).buffer
            bytes_per_row :=
              copyStagePaddedBytesPerRow ⟨TextureFormat.bevy_default, 258, 4⟩
            extent := { width := 258, height := 4, depth_or_array_layers := 1 } }],
         false)) :=
  ⟨by decide, C10_new_starts_enabled 7 ⟨258, 4, 1⟩
    (fun i => if i = 7 then some ⟨TextureFormat.bevy_default, 258, 4⟩ else none)
    ⟨TextureFormat.bevy_default, 258, 4⟩ (by decide)⟩

end RenderHeadless
